import Mathlib

/-!
Verification of the environment-adaptive meta scoring engine of the
pokemon-tcgp-meta-app repository.

The TypeScript source is embedded shallowly:

* all JavaScript numbers that the claims touch are modelled as `ℚ`
  (the code performs only field arithmetic and comparisons on them);
* `Map` objects are modelled as association lists in insertion order,
  `Map.get` as `List.lookup`;
* loops that push into an array are modelled as `List.filterMap` /
  `List.foldl`; `Array.prototype.sort` (a stable sort in JS) is modelled
  as `List.insertionSort`, which is likewise stable;
* `Math.log2` and `Math.sqrt` are transcendental floating point
  functions; they are taken as function parameters (`log2`, `sqrtFn`) so
  that every definition stays computable.  The claims never depend on
  their values beyond `log2 1 = 0`, which is passed as a hypothesis.
-/

attribute [local semireducible] Rat.mul Rat.inv Rat.add Rat.sub

/-- Record type of `Deck` from src/api/types.ts.  Numeric fields are
modelled as `ℚ`. -/
structure Deck where
  rank : ℚ
  name : String
  count : ℚ
  share : ℚ
  score : String
  winRate : ℚ
  wins : ℚ
  losses : ℚ
  ties : ℚ
deriving DecidableEq

/-- Record type of `TimeSeries` from src/api/types.ts. -/
structure TimeSeries where
  date : String
  decks : List Deck
deriving DecidableEq

/-- Record type of `MetaPrediction` from src/api/types.ts. -/
structure MetaPrediction where
  risingDecks : List String
  decliningDecks : List String
  confidenceLevel : ℚ
deriving DecidableEq

/-- JavaScript `Math.round`: round half toward positive infinity. -/
def jsRound (q : ℚ) : ℤ := Int.floor (q + 1/2)

/-- The idiom `Math.round(x * 100) / 100` used by the source to keep two
decimal places. -/
def jsRound2 (q : ℚ) : ℚ := (jsRound (q * 100) : ℚ) / 100

/-- Sum of the `share` fields of a deck list, as computed by the
`reduce((sum, deck) => sum + deck.share, 0)` idiom of the source. -/
def sumShares (decks : List Deck) : ℚ := (decks.map Deck.share).sum

namespace AdvancedMetaAnalyzer

/-- Embeds `AdvancedMetaAnalyzer.calculateDiversityIndex`
(src/analyzer/advanced.ts lines 51-61): the Simpson complement index
`1 - Σ (share/total)^2`, and `0` when the total share is `0`. -/
def calculateDiversityIndex (decks : List Deck) : ℚ :=
  let totalShare := sumShares decks
  if totalShare = 0 then 0
  else 1 - (decks.map (fun d => (d.share / totalShare) * (d.share / totalShare))).sum

/-- One step of `analyzeTrends`: `trends.get(name)!.push(share)` after
`trends.set(name, [])` when the key is new.  A `Map` keeps insertion
order, hence the association-list embedding. -/
def addShare (trends : List (String × List ℚ)) (name : String) (share : ℚ) :
    List (String × List ℚ) :=
  if (trends.lookup name).isSome then
    trends.map (fun p => if p.1 == name then (p.1, p.2 ++ [share]) else p)
  else trends ++ [(name, [share])]

/-- Embeds `AdvancedMetaAnalyzer.analyzeTrends`
(src/analyzer/advanced.ts lines 86-100): per deck name, the sequence of
its shares across the snapshots in which it appears. -/
def analyzeTrends (historicalData : List TimeSeries) : List (String × List ℚ) :=
  historicalData.foldl
    (fun tr dataPoint => dataPoint.decks.foldl (fun tr2 d => addShare tr2 d.name d.share) tr)
    []

/-- Embeds `AdvancedMetaAnalyzer.calculateSlope`
(src/analyzer/advanced.ts lines 143-153): ordinary least squares slope
over index positions `0..n-1`, with `sumX` and `sumX2` given by the
closed-form Gauss formulas exactly as in the source. -/
def calculateSlope (values : List ℚ) : ℚ :=
  if values.length < 2 then 0
  else
    let n : ℚ := values.length
    let sumX : ℚ := n * (n - 1) / 2
    let sumY : ℚ := values.sum
    let sumXY : ℚ := (values.enum.map (fun p => (p.1 : ℚ) * p.2)).sum
    let sumX2 : ℚ := n * (n - 1) * (2 * n - 1) / 6
    (n * sumXY - sumX * sumY) / (n * sumX2 - sumX * sumX)

/-- The candidate-collecting loop of `identifyRisingDecks`
(src/analyzer/advanced.ts lines 102-115): decks with at least two data
points, slope `> 0.1` and latest share `≥ 3.0`, paired with their
slope. -/
def risingCandidates (trends : List (String × List ℚ)) : List (String × ℚ) :=
  trends.filterMap (fun p =>
    if p.2.length < 2 then none
    else
      let slope := calculateSlope p.2
      if slope > 1/10 ∧ p.2.getD (p.2.length - 1) 0 ≥ 3 then some (p.1, slope) else none)

/-- Embeds `AdvancedMetaAnalyzer.identifyRisingDecks`
(src/analyzer/advanced.ts lines 102-121): candidates sorted by slope
descending, capped at 5, mapped to names. -/
def identifyRisingDecks (trends : List (String × List ℚ)) : List String :=
  (((risingCandidates trends).insertionSort (fun a b => b.2 ≤ a.2)).take 5).map Prod.fst

/-- The candidate-collecting loop of `identifyDecliningDecks`
(src/analyzer/advanced.ts lines 123-135): decks with at least two data
points, slope `< -0.1` and first share `≥ 5.0`, paired with the absolute
value of their slope. -/
def decliningCandidates (trends : List (String × List ℚ)) : List (String × ℚ) :=
  trends.filterMap (fun p =>
    if p.2.length < 2 then none
    else
      let slope := calculateSlope p.2
      if slope < -(1/10) ∧ p.2.getD 0 0 ≥ 5 then some (p.1, |slope|) else none)

/-- Embeds `AdvancedMetaAnalyzer.identifyDecliningDecks`
(src/analyzer/advanced.ts lines 123-141): candidates sorted by absolute
slope descending, capped at 5, mapped to names. -/
def identifyDecliningDecks (trends : List (String × List ℚ)) : List String :=
  (((decliningCandidates trends).insertionSort (fun a b => b.2 ≤ a.2)).take 5).map Prod.fst

/-- Embeds `AdvancedMetaAnalyzer.calculatePredictionConfidence`
(src/analyzer/advanced.ts lines 155-163). -/
def calculatePredictionConfidence (historicalData : List TimeSeries) : ℚ :=
  if historicalData.length ≥ 10 then 9/10
  else if historicalData.length ≥ 5 then 7/10
  else if historicalData.length ≥ 3 then 1/2
  else 3/10

/-- Embeds `AdvancedMetaAnalyzer.predictMetaEvolution`
(src/analyzer/advanced.ts lines 66-84).  Note the guard branch returns
`confidenceLevel: 0` literally. -/
def predictMetaEvolution (historicalData : List TimeSeries) : MetaPrediction :=
  if historicalData.length < 2 then ⟨[], [], 0⟩
  else
    let trends := analyzeTrends historicalData
    ⟨identifyRisingDecks trends, identifyDecliningDecks trends,
      calculatePredictionConfidence historicalData⟩

end AdvancedMetaAnalyzer

namespace AdvancedMetaAnalysis

/-- Embeds `AdvancedMetaAnalysis.calculateDiversityIndex`
(src/unnamed/part_001 lines 355-372): normalized Shannon index, scaled
to 0-100 and rounded to two decimals.  `Math.log2` is the parameter
`log2`. -/
def calculateDiversityIndex (log2 : ℚ → ℚ) (decks : List Deck) : ℚ :=
  let totalShare := sumShares decks
  if totalShare = 0 then 0
  else
    let diversity :=
      -(decks.map (fun d =>
          if d.share > 0 then (d.share / totalShare) * log2 (d.share / totalShare) else 0)).sum
    let maxDiversity := log2 (decks.length : ℚ)
    let normalizedDiversity := if maxDiversity > 0 then diversity / maxDiversity * 100 else 0
    jsRound2 normalizedDiversity

end AdvancedMetaAnalysis

/-- Record type of `DeckAnalysis` (alias of `EnvironmentalAnalysis`) from
src/api/types.ts, restricted to the fields the engine populates. -/
structure DeckAnalysis where
  deck : Deck
  expectedWinRate : ℚ
  tier : String
  confidenceLevel : ℚ
  stability : ℚ
  strengths : List String
  weaknesses : List String
deriving DecidableEq

/-- The matchup table `Map<string, Map<string, number>>`, in insertion
order. -/
abbrev Matchups := List (String × List (String × ℚ))

/-- Pattern check used by `strIncludes`: does the text start with the
pattern. -/
def charsStartWith : List Char → List Char → Bool
  | [], _ => true
  | _ :: _, [] => false
  | a :: as, b :: bs => a == b && charsStartWith as bs

/-- Substring scan used by `strIncludes`. -/
def charsContains : List Char → List Char → Bool
  | [], pat => pat.isEmpty
  | a :: rest, pat => charsStartWith pat (a :: rest) || charsContains rest pat

/-- JavaScript `String.prototype.includes`: substring containment. -/
def strIncludes (s pat : String) : Bool := charsContains s.toList pat.toList

/-- JavaScript `Number.prototype.toFixed(1)` for the non-negative win
rates the source formats: one decimal digit, rounded. -/
def toFixed1 (q : ℚ) : String :=
  let n : ℤ := jsRound (q * 10)
  toString (n / 10) ++ "." ++ toString (n.natAbs % 10)

/-- The template literal `\x24{name} (\x24{winRate.toFixed(1)}%)` used for
strength and weakness entries in src/storage/database.ts. -/
def fmtMatch (name : String) (winRate : ℚ) : String :=
  name ++ " (" ++ toFixed1 winRate ++ "%)"

namespace DeckOptimizer

/-- The constructor sort `decks.sort((a, b) => b.share - a.share)`
(src/storage/database.ts line 835): stable descending sort by share. -/
def sortDecks (decks : List Deck) : List Deck :=
  decks.insertionSort (fun a b => b.share ≤ a.share)

/-- Embeds `DeckOptimizer.calculateExpectedWinRate`
(src/storage/database.ts lines 844-873).  The loop with `continue` over
opponents is the filter on name inequality; the two accumulators are the
two sums.  `environmentCoverage` (line 878-880) is `sumShares decks`. -/
def calculateExpectedWinRate (decks : List Deck) (matchups : Matchups)
    (deckName : String) : ℚ :=
  match decks.find? (fun d => d.name == deckName) with
  | none => 0
  | some deck =>
    let opponents := decks.filter (fun o => !(o.name == deckName))
    let weightedWinRate :=
      (opponents.map (fun o =>
        (((matchups.lookup deckName).bind (fun md => md.lookup o.name)).getD deck.winRate)
          * o.share)).sum
    let totalWeight := (opponents.map Deck.share).sum
    let remainingShare := 100 - sumShares decks
    let weightedWinRate :=
      if remainingShare > 0 then weightedWinRate + deck.winRate * remainingShare
      else weightedWinRate
    let totalWeight :=
      if remainingShare > 0 then totalWeight + remainingShare else totalWeight
    if totalWeight > 0 then weightedWinRate / totalWeight else deck.winRate

/-- Embeds `DeckOptimizer.getTier` (src/storage/database.ts lines
885-892). -/
def getTier (expectedWinRate : ℚ) : String :=
  if expectedWinRate ≥ 57 then "SS (環境支配)"
  else if expectedWinRate ≥ 55 then "S (最強候補)"
  else if expectedWinRate ≥ 53 then "A+ (実用最強)"
  else if expectedWinRate ≥ 51 then "A (実用可能)"
  else if expectedWinRate ≥ 49 then "B (条件付き採用)"
  else "C (非推奨)"

/-- Embeds `DeckOptimizer.analyzeMatchups` (src/storage/database.ts lines
1117-1139): strengths (rate ≥ 60) and weaknesses (rate ≤ 40) against
major decks (share ≥ 3), formatted, in major-deck order. -/
def analyzeMatchups (decks : List Deck) (matchups : Matchups) (deckName : String) :
    List String × List String :=
  match matchups.lookup deckName with
  | none => ([], [])
  | some matchupData =>
    let majorDecks := decks.filter (fun d => d.share ≥ 3)
    let strengths := majorDecks.filterMap (fun o =>
      (matchupData.lookup o.name).bind
        (fun wr => if wr ≥ 60 then some (fmtMatch o.name wr) else none))
    let weaknesses := majorDecks.filterMap (fun o =>
      (matchupData.lookup o.name).bind
        (fun wr => if wr ≤ 40 then some (fmtMatch o.name wr) else none))
    (strengths, weaknesses)

/-- Embeds `DeckOptimizer.calculateConfidence` (src/storage/database.ts
lines 1141-1152). -/
def calculateConfidence (deck : Deck) : ℚ :=
  let estimatedMatches := deck.wins + deck.losses + deck.ties
  if estimatedMatches ≥ 1000 then 1
  else if estimatedMatches ≥ 500 then 9/10
  else if estimatedMatches ≥ 200 then 8/10
  else if estimatedMatches ≥ 100 then 7/10
  else if estimatedMatches ≥ 50 then 6/10
  else 1/2

/-- Embeds `DeckOptimizer.calculateStability` (src/storage/database.ts
lines 1153-1169).  `Math.sqrt` is the parameter `sqrtFn`.  The source
checks emptiness twice (`size === 0` and `length === 0`); both are the
single `isEmpty` test here. -/
def calculateStability (matchups : Matchups) (sqrtFn : ℚ → ℚ) (deckName : String) : ℚ :=
  match matchups.lookup deckName with
  | none => 1/2
  | some matchupData =>
    if matchupData.isEmpty then 1/2
    else
      let winRates := matchupData.map Prod.snd
      let mean := winRates.sum / (winRates.length : ℚ)
      let variance := (winRates.map (fun rate => (rate - mean) ^ 2)).sum / (winRates.length : ℚ)
      let stdDev := sqrtFn variance
      max 0 (min 1 (1 - stdDev / 20))

/-- Embeds `DeckOptimizer.analyzeAllDecks` (src/storage/database.ts lines
897-918): one analysis per stored deck, then a stable sort by expected
win rate descending.  `decks` is the stored (share-sorted) list. -/
def analyzeAllDecks (decks : List Deck) (matchups : Matchups) (sqrtFn : ℚ → ℚ) :
    List DeckAnalysis :=
  let analyses := decks.map (fun deck =>
    let expectedWinRate := calculateExpectedWinRate decks matchups deck.name
    let sw := analyzeMatchups decks matchups deck.name
    { deck := deck
      expectedWinRate := expectedWinRate
      tier := getTier expectedWinRate
      confidenceLevel := calculateConfidence deck
      stability := calculateStability matchups sqrtFn deck.name
      strengths := sw.1
      weaknesses := sw.2 })
  analyses.insertionSort (fun a b => b.expectedWinRate ≤ a.expectedWinRate)

/-- Embeds `DeckOptimizer.getFavorableMatchups` (src/storage/database.ts
lines 1172-1181). -/
def getFavorableMatchups (matchups : Matchups) (deckName : String) : List (String × ℚ) :=
  match matchups.lookup deckName with
  | none => []
  | some m => ((m.filter (fun p => p.2 ≥ 55)).insertionSort (fun a b => b.2 ≤ a.2)).take 3

/-- Embeds `DeckOptimizer.getUnfavorableMatchups`
(src/storage/database.ts lines 1185-1194). -/
def getUnfavorableMatchups (matchups : Matchups) (deckName : String) : List (String × ℚ) :=
  match matchups.lookup deckName with
  | none => []
  | some m => ((m.filter (fun p => p.2 ≤ 45)).insertionSort (fun a b => a.2 ≤ b.2)).take 3

/-- The enriched main slot `DeckAnalysis & { confidence, favorableMatchups,
unfavorableMatchups }` built at src/storage/database.ts lines 930-935. -/
structure MainAnalysis where
  analysis : DeckAnalysis
  confidence : ℤ
  favorableMatchups : List (String × ℚ)
  unfavorableMatchups : List (String × ℚ)
deriving DecidableEq

/-- Record type of `TournamentLineup` from src/storage/database.ts lines
819-827. -/
structure TournamentLineup where
  main : MainAnalysis
  sub : Option DeckAnalysis
  meta : Option DeckAnalysis
deriving DecidableEq

/-- Embeds `DeckOptimizer.recommendTournamentLineup`
(src/storage/database.ts lines 923-960).  The source dereferences
`analyses[0]`, so the empty case (which would throw a `TypeError`) is
`none`.  Analyses are tracked with their index because the source
compares object identity: `a !== sub` is the index test, while
`a !== main` always holds because `main` is a fresh spread copy of
`analyses[0]` — only the sub identity test is effective. -/
def recommendTournamentLineup (decks : List Deck) (matchups : Matchups)
    (sqrtFn : ℚ → ℚ) : Option TournamentLineup :=
  let analyses := analyzeAllDecks decks matchups sqrtFn
  match analyses with
  | [] => none
  | baseMain :: _ =>
    let main : MainAnalysis :=
      { analysis := baseMain
        confidence := jsRound (baseMain.confidenceLevel * 100)
        favorableMatchups := getFavorableMatchups matchups baseMain.deck.name
        unfavorableMatchups := getUnfavorableMatchups matchups baseMain.deck.name }
    let enumAnalyses := analyses.enum
    let subPred : DeckAnalysis → Bool := fun analysis =>
      (baseMain.weaknesses.any (fun weakness =>
        let weakDeck := (weakness.splitOn " ").headD ""
        analysis.strengths.any (fun strength => strIncludes strength weakDeck)))
      && decide (analysis.expectedWinRate ≥ 51)
    let subEntry := ((enumAnalyses.drop 1).take 9).find? (fun p => subPred p.2)
    let metaEntry := enumAnalyses.find? (fun p =>
      decide (p.2.deck.share < 5) && decide (p.2.expectedWinRate ≥ 53)
      && (match subEntry with | some s => decide (p.1 ≠ s.1) | none => true))
    some { main := main, sub := subEntry.map Prod.snd, meta := metaEntry.map Prod.snd }

end DeckOptimizer

namespace DataStorage

/-- Embeds `DataStorage.getTier` (src/storage/database.ts lines 299-306):
same thresholds as the optimizer tiers, bare labels. -/
def getTier (expectedWinRate : ℚ) : String :=
  if expectedWinRate ≥ 57 then "SS"
  else if expectedWinRate ≥ 55 then "S"
  else if expectedWinRate ≥ 53 then "A+"
  else if expectedWinRate ≥ 51 then "A"
  else if expectedWinRate ≥ 49 then "B"
  else "C"

end DataStorage

/-- The accumulation loop of `selectDecksByCoverage`
(src/utils/coverage.ts lines 16-24): push each deck, then break once the
cumulative share reaches the target. -/
def selectLoop (targetCoverage : ℚ) : List Deck → ℚ → List Deck
  | [], _ => []
  | deck :: rest, cumulativeShare =>
    deck ::
      (if cumulativeShare + deck.share ≥ targetCoverage then []
       else selectLoop targetCoverage rest (cumulativeShare + deck.share))

/-- Embeds `selectDecksByCoverage` (src/utils/coverage.ts lines 5-29):
empty input returns empty, otherwise the loop runs over the decks
stably sorted by share descending. -/
def selectDecksByCoverage (decks : List Deck) (targetCoverage : ℚ) : List Deck :=
  if decks.isEmpty then []
  else selectLoop targetCoverage (decks.insertionSort (fun a b => b.share ≤ a.share)) 0

instance : IsTotal Deck (fun a b => b.share ≤ a.share) :=
  ⟨fun a b => le_total b.share a.share⟩

instance : IsTrans Deck (fun a b => b.share ≤ a.share) :=
  ⟨fun _ _ _ h1 h2 => le_trans h2 h1⟩

/-- The coverage loop consumes a prefix of its input. -/
theorem selectLoop_app (t : ℚ) :
    ∀ (l : List Deck) (c : ℚ), ∃ rest, l = selectLoop t l c ++ rest := by
  intro l
  induction l with
  | nil => exact fun c => ⟨[], rfl⟩
  | cons d rest ih =>
    intro c
    by_cases hc : c + d.share ≥ t
    · exact ⟨rest, by simp [selectLoop, hc]⟩
    · obtain ⟨r2, hr2⟩ := ih (c + d.share)
      refine ⟨r2, ?_⟩
      simp only [selectLoop, if_neg hc]
      rw [List.cons_append, ← hr2]

/-- The coverage loop keeps at least the first deck. -/
theorem selectLoop_ne_nil (t : ℚ) (d : Deck) (l : List Deck) (c : ℚ) :
    selectLoop t (d :: l) c ≠ [] := by
  simp [selectLoop]

/-- The coverage loop stops only once the running sum reaches the target
or the input is exhausted. -/
theorem selectLoop_reaches (t : ℚ) :
    ∀ (l : List Deck) (c : ℚ),
      c + sumShares (selectLoop t l c) ≥ t ∨ selectLoop t l c = l := by
  intro l
  induction l with
  | nil => exact fun c => Or.inr rfl
  | cons d rest ih =>
    intro c
    by_cases hc : c + d.share ≥ t
    · left
      simp only [selectLoop, if_pos hc]
      simp [sumShares]
      linarith
    · rcases ih (c + d.share) with h | h
      · left
        simp only [selectLoop, if_neg hc]
        simp only [sumShares, List.map_cons, List.sum_cons] at h ⊢
        linarith
      · right
        simp [selectLoop, hc, h]

/-- Every nonempty proper prefix of the loop output has a running sum
strictly below the target. -/
theorem selectLoop_min (t : ℚ) :
    ∀ (l : List Deck) (c : ℚ) (k : ℕ),
      0 < k → k < (selectLoop t l c).length → c + sumShares (l.take k) < t := by
  intro l
  induction l with
  | nil =>
    intro c k _ h2
    simp [selectLoop] at h2
  | cons d rest ih =>
    intro c k hk hlen
    by_cases hc : c + d.share ≥ t
    · simp [selectLoop, hc] at hlen
      omega
    · simp only [selectLoop, if_neg hc, List.length_cons] at hlen
      obtain ⟨j, rfl⟩ : ∃ j, k = j + 1 := ⟨k - 1, by omega⟩
      rw [List.take_succ_cons]
      simp only [sumShares, List.map_cons, List.sum_cons]
      by_cases hj : j = 0
      · subst hj
        simp only [List.take_zero, List.map_nil, List.sum_nil]
        linarith [not_le.mp hc]
      · have hrec := ih (c + d.share) j (by omega) (by omega)
        simp only [sumShares] at hrec
        linarith

/-- C5: coverage selection returns a prefix of the share-descending
stable sort such that the cumulative share reaches the target (or the
whole list when it never does), every strictly shorter nonempty prefix
stays below the target, the empty input maps to the empty output, and a
nonempty input always yields at least one deck. -/
theorem selectDecksByCoverage_spec (decks : List Deck) (t : ℚ) :
    (decks = [] → selectDecksByCoverage decks t = [])
    ∧ (decks ≠ [] → selectDecksByCoverage decks t ≠ [])
    ∧ (∃ rest, decks.insertionSort (fun a b => b.share ≤ a.share)
        = selectDecksByCoverage decks t ++ rest)
    ∧ (sumShares (selectDecksByCoverage decks t) ≥ t
        ∨ selectDecksByCoverage decks t = decks.insertionSort (fun a b => b.share ≤ a.share))
    ∧ (∀ k : ℕ, 0 < k → k < (selectDecksByCoverage decks t).length →
        sumShares ((decks.insertionSort (fun a b => b.share ≤ a.share)).take k) < t)
    ∧ (decks.insertionSort (fun a b => b.share ≤ a.share)).Sorted (fun a b => b.share ≤ a.share)
    ∧ List.Perm (decks.insertionSort (fun a b => b.share ≤ a.share)) decks := by
  have hperm := List.perm_insertionSort (fun a b => b.share ≤ a.share) decks
  refine ⟨?_, ?_, ?_, ?_, ?_, List.sorted_insertionSort _ _, hperm⟩
  · intro h
    subst h
    rfl
  · intro h
    unfold selectDecksByCoverage
    rw [if_neg (by simpa using h)]
    cases hs : decks.insertionSort (fun a b => b.share ≤ a.share) with
    | nil =>
      exfalso
      apply h
      rw [hs] at hperm
      exact (hperm.symm).eq_nil
    | cons d l2 => exact selectLoop_ne_nil t d l2 0
  · unfold selectDecksByCoverage
    by_cases h : decks.isEmpty
    · rw [if_pos h]
      exact ⟨decks.insertionSort (fun a b => b.share ≤ a.share), by simp⟩
    · rw [if_neg h]
      exact selectLoop_app t (decks.insertionSort (fun a b => b.share ≤ a.share)) 0
  · unfold selectDecksByCoverage
    by_cases h : decks.isEmpty
    · rw [if_pos h]
      right
      have hnil : decks = [] := by simpa using h
      subst hnil
      rfl
    · rw [if_neg h]
      rcases selectLoop_reaches t (decks.insertionSort (fun a b => b.share ≤ a.share)) 0 with h1 | h1
      · left
        rwa [zero_add] at h1
      · right
        exact h1
  · intro k hk hlen
    simp only [selectDecksByCoverage] at hlen
    by_cases h : decks.isEmpty
    · rw [if_pos h] at hlen
      simp at hlen
    · rw [if_neg h] at hlen
      have hmin := selectLoop_min t (decks.insertionSort (fun a b => b.share ≤ a.share)) 0 k hk hlen
      rwa [zero_add] at hmin

/-- Deck constructor for the coverage example: only name and share are
relevant. -/
def mkShareDeck (nm : String) (sh : ℚ) : Deck :=
  { rank := 0, name := nm, count := 0, share := sh, score := "",
    winRate := 50, wins := 0, losses := 0, ties := 0 }

/-- The shares [40, 30, 20, 10] example from the spec. -/
def covDecks : List Deck :=
  [mkShareDeck "Top" 40, mkShareDeck "Second" 30, mkShareDeck "Third" 20,
   mkShareDeck "Fourth" 10]

/-- Witness for C5: on shares [40, 30, 20, 10] with target 80 the
selection is exactly the first three decks (cumulative 90 ≥ 80). -/
theorem selectDecksByCoverage_spec_witness :
    covDecks ≠ []
    ∧ selectDecksByCoverage covDecks 80 ≠ []
    ∧ selectDecksByCoverage covDecks 80
        = [mkShareDeck "Top" 40, mkShareDeck "Second" 30, mkShareDeck "Third" 20] :=
  ⟨by decide, (selectDecksByCoverage_spec covDecks 80).2.1 (by decide), by decide⟩

/-- Gauss sum: the sum of the casts of 0..n-1 equals the closed form the
source uses for `sumX`. -/
theorem rangeCastSum (n : ℕ) :
    ((List.range n).map (Nat.cast : ℕ → ℚ)).sum = (n : ℚ) * ((n : ℚ) - 1) / 2 := by
  induction n with
  | zero => simp
  | succ m ih =>
    rw [List.range_succ, List.map_append, List.sum_append, ih]
    simp only [List.map_cons, List.map_nil, List.sum_cons, List.sum_nil]
    push_cast
    ring

/-- Gauss sum of squares: the sum of the squared casts of 0..n-1 equals
the closed form the source uses for `sumX2`. -/
theorem rangeCastSqSum (n : ℕ) :
    ((List.range n).map (fun i => (Nat.cast i : ℚ) ^ 2)).sum
      = (n : ℚ) * ((n : ℚ) - 1) * (2 * (n : ℚ) - 1) / 6 := by
  induction n with
  | zero => simp
  | succ m ih =>
    rw [List.range_succ, List.map_append, List.sum_append, ih]
    simp only [List.map_cons, List.map_nil, List.sum_cons, List.sum_nil]
    push_cast
    ring

/-- Products over a zip with pre-cast indices agree with products over
the raw zip. -/
theorem zipMapMul (l1 : List ℕ) (l2 : List ℚ) :
    (((l1.map (Nat.cast : ℕ → ℚ)).zip l2).map (fun p => p.1 * p.2)).sum
      = ((l1.zip l2).map (fun p => (p.1 : ℚ) * p.2)).sum := by
  induction l1 generalizing l2 with
  | nil => simp
  | cons a l ih =>
    cases l2 with
    | nil => simp
    | cons b l2 => simp [ih]

/-- Definition following the words of the spec (section 4.8) for the
ordinary least squares slope over index positions 0..n-1, written with
genuine sums instead of the closed forms. -/
def olsSlope (values : List ℚ) : ℚ :=
  let n : ℚ := values.length
  let xs := (List.range values.length).map (Nat.cast : ℕ → ℚ)
  let sumX := xs.sum
  let sumY := values.sum
  let sumXY := ((xs.zip values).map (fun p => p.1 * p.2)).sum
  let sumX2 := (xs.map (fun x => x ^ 2)).sum
  (n * sumXY - sumX * sumY) / (n * sumX2 - sumX * sumX)

/-- The closed-form sums of the source compute the genuine OLS slope. -/
theorem calculateSlope_eq_ols (values : List ℚ) (h2 : 2 ≤ values.length) :
    AdvancedMetaAnalyzer.calculateSlope values = olsSlope values := by
  unfold AdvancedMetaAnalyzer.calculateSlope olsSlope
  rw [if_neg (by omega)]
  simp only [List.map_map, Function.comp_def]
  rw [rangeCastSum, rangeCastSqSum, zipMapMul, ← List.enum_eq_zip_range]

/-- In an association list with nodup keys, a key determines its value. -/
theorem keyUnique {β : Type} :
    ∀ (l : List (String × β)), (l.map Prod.fst).Nodup →
      ∀ {a : String} {b b2 : β}, (a, b) ∈ l → (a, b2) ∈ l → b = b2 := by
  intro l
  induction l with
  | nil =>
    intro _ a b b2 h1
    simp at h1
  | cons p rest ih =>
    intro hnd a b b2 h1 h2
    simp only [List.map_cons, List.nodup_cons] at hnd
    rcases List.mem_cons.mp h1 with e1 | m1
    · subst e1
      rcases List.mem_cons.mp h2 with e2 | m2
      · injection e2 with _ hb
        exact hb.symm
      · exact absurd (List.mem_map_of_mem Prod.fst m2) hnd.1
    · rcases List.mem_cons.mp h2 with e2 | m2
      · subst e2
        exact absurd (List.mem_map_of_mem Prod.fst m1) hnd.1
      · exact ih hnd.2 m1 m2

/-- Membership in the rising-candidate list characterized per deck, for
trend tables with unique names (which `analyzeTrends` produces). -/
theorem risingCandidates_mem (trends : List (String × List ℚ)) (name : String)
    (shares : List ℚ) (s : ℚ) (hkeys : (trends.map Prod.fst).Nodup)
    (hmem : (name, shares) ∈ trends) :
    (name, s) ∈ AdvancedMetaAnalyzer.risingCandidates trends
      ↔ (2 ≤ shares.length ∧ s = AdvancedMetaAnalyzer.calculateSlope shares
          ∧ s > 1/10 ∧ shares.getD (shares.length - 1) 0 ≥ 3) := by
  unfold AdvancedMetaAnalyzer.risingCandidates
  constructor
  · intro hs
    obtain ⟨⟨pf, ps⟩, hp, hfp⟩ := List.mem_filterMap.mp hs
    by_cases hlen : ps.length < 2
    · rw [if_pos hlen] at hfp
      exact absurd hfp (by simp)
    · rw [if_neg hlen] at hfp
      by_cases hcond : AdvancedMetaAnalyzer.calculateSlope ps > 1/10
          ∧ ps.getD (ps.length - 1) 0 ≥ 3
      · rw [if_pos hcond] at hfp
        have hpair := Option.some.inj hfp
        have hpn : pf = name := congrArg Prod.fst hpair
        have hps : AdvancedMetaAnalyzer.calculateSlope ps = s := congrArg Prod.snd hpair
        subst hpn
        have hp2 : ps = shares := keyUnique trends hkeys hp hmem
        subst hp2
        exact ⟨by omega, hps.symm, hps ▸ hcond.1, hcond.2⟩
      · rw [if_neg hcond] at hfp
        exact absurd hfp (by simp)
  · rintro ⟨hl2, hseq, hgt, hlast⟩
    subst hseq
    refine List.mem_filterMap.mpr ⟨(name, shares), hmem, ?_⟩
    dsimp only
    rw [if_neg (by omega), if_pos ⟨hgt, hlast⟩]

/-- Membership in the declining-candidate list characterized per deck,
for trend tables with unique names. -/
theorem decliningCandidates_mem (trends : List (String × List ℚ)) (name : String)
    (shares : List ℚ) (s : ℚ) (hkeys : (trends.map Prod.fst).Nodup)
    (hmem : (name, shares) ∈ trends) :
    (name, s) ∈ AdvancedMetaAnalyzer.decliningCandidates trends
      ↔ (2 ≤ shares.length ∧ s = |AdvancedMetaAnalyzer.calculateSlope shares|
          ∧ AdvancedMetaAnalyzer.calculateSlope shares < -(1/10)
          ∧ shares.getD 0 0 ≥ 5) := by
  unfold AdvancedMetaAnalyzer.decliningCandidates
  constructor
  · intro hs
    obtain ⟨⟨pf, ps⟩, hp, hfp⟩ := List.mem_filterMap.mp hs
    by_cases hlen : ps.length < 2
    · rw [if_pos hlen] at hfp
      exact absurd hfp (by simp)
    · rw [if_neg hlen] at hfp
      by_cases hcond : AdvancedMetaAnalyzer.calculateSlope ps < -(1/10)
          ∧ ps.getD 0 0 ≥ 5
      · rw [if_pos hcond] at hfp
        have hpair := Option.some.inj hfp
        have hpn : pf = name := congrArg Prod.fst hpair
        have hps : |AdvancedMetaAnalyzer.calculateSlope ps| = s := congrArg Prod.snd hpair
        subst hpn
        have hp2 : ps = shares := keyUnique trends hkeys hp hmem
        subst hp2
        exact ⟨by omega, hps.symm, hcond.1, hcond.2⟩
      · rw [if_neg hcond] at hfp
        exact absurd hfp (by simp)
  · rintro ⟨hl2, hseq, hlt, hfirst⟩
    subst hseq
    refine List.mem_filterMap.mpr ⟨(name, shares), hmem, ?_⟩
    dsimp only
    rw [if_neg (by omega), if_pos ⟨hlt, hfirst⟩]

/-- C7: per deck with at least two data points, the source computes the
closed-form OLS slope over positions 0..n-1, a deck enters the rising
candidates exactly when slope > 0.1 and its latest share is at least 3,
the declining candidates exactly when slope < -0.1 and its first share
is at least 5; decks with fewer than two points are never classified,
and the shares [2, 3, 4, 5] give slope 1. -/
theorem trend_classification (trends : List (String × List ℚ)) (name : String)
    (shares : List ℚ) (hmem : (name, shares) ∈ trends)
    (hkeys : (trends.map Prod.fst).Nodup) :
    (∀ s : ℚ, (name, s) ∈ AdvancedMetaAnalyzer.risingCandidates trends
      ↔ (2 ≤ shares.length ∧ s = AdvancedMetaAnalyzer.calculateSlope shares
          ∧ s > 1/10 ∧ shares.getD (shares.length - 1) 0 ≥ 3))
    ∧ (∀ s : ℚ, (name, s) ∈ AdvancedMetaAnalyzer.decliningCandidates trends
      ↔ (2 ≤ shares.length ∧ s = |AdvancedMetaAnalyzer.calculateSlope shares|
          ∧ AdvancedMetaAnalyzer.calculateSlope shares < -(1/10)
          ∧ shares.getD 0 0 ≥ 5))
    ∧ (2 ≤ shares.length → AdvancedMetaAnalyzer.calculateSlope shares = olsSlope shares)
    ∧ (shares.length < 2 →
        name ∉ AdvancedMetaAnalyzer.identifyRisingDecks trends
        ∧ name ∉ AdvancedMetaAnalyzer.identifyDecliningDecks trends)
    ∧ AdvancedMetaAnalyzer.calculateSlope [2, 3, 4, 5] = 1 := by
  refine ⟨fun s => risingCandidates_mem trends name shares s hkeys hmem,
    fun s => decliningCandidates_mem trends name shares s hkeys hmem,
    fun h2 => calculateSlope_eq_ols shares h2, fun hlt => ⟨?_, ?_⟩, by decide⟩
  · intro hin
    unfold AdvancedMetaAnalyzer.identifyRisingDecks at hin
    obtain ⟨q, hq, hqf⟩ := List.mem_map.mp hin
    have hqc : q ∈ AdvancedMetaAnalyzer.risingCandidates trends :=
      ((List.perm_insertionSort _ _).mem_iff).mp (List.mem_of_mem_take hq)
    obtain ⟨qf, qs⟩ := q
    subst hqf
    have := (risingCandidates_mem trends qf shares qs hkeys hmem).mp hqc
    omega
  · intro hin
    unfold AdvancedMetaAnalyzer.identifyDecliningDecks at hin
    obtain ⟨q, hq, hqf⟩ := List.mem_map.mp hin
    have hqc : q ∈ AdvancedMetaAnalyzer.decliningCandidates trends :=
      ((List.perm_insertionSort _ _).mem_iff).mp (List.mem_of_mem_take hq)
    obtain ⟨qf, qs⟩ := q
    subst hqf
    have := (decliningCandidates_mem trends qf shares qs hkeys hmem).mp hqc
    omega

/-- Concrete trend table for the C7 witness. -/
def trendsEx : List (String × List ℚ) := [("x", [2, 3, 4, 5])]

/-- Witness for C7: the deck with shares [2, 3, 4, 5] has slope 1 and is
a rising candidate. -/
theorem trend_classification_witness :
    ("x", ([2, 3, 4, 5] : List ℚ)) ∈ trendsEx
    ∧ (trendsEx.map Prod.fst).Nodup
    ∧ ("x", (1 : ℚ)) ∈ AdvancedMetaAnalyzer.risingCandidates trendsEx :=
  ⟨by decide, by decide,
    ((trend_classification trendsEx "x" [2, 3, 4, 5] (by decide) (by decide)).1 1).mpr
      (by decide)⟩

instance : IsTotal (String × ℚ) (fun a b => b.2 ≤ a.2) :=
  ⟨fun a b => le_total b.2 a.2⟩

instance : IsTrans (String × ℚ) (fun a b => b.2 ≤ a.2) :=
  ⟨fun _ _ _ h1 h2 => le_trans h2 h1⟩

/-- C10: both prediction lists are capped at five names, and each output
is exactly the top of the qualifying decks by slope magnitude: there is
a slope-descending list that is a permutation of the full candidate list
(so it contains every qualifying deck, nothing else), and the output is
the name projection of its first at-most-five entries. -/
theorem trend_output_cap (hist : List TimeSeries) (trends : List (String × List ℚ)) :
    ((AdvancedMetaAnalyzer.predictMetaEvolution hist).risingDecks.length ≤ 5
      ∧ (AdvancedMetaAnalyzer.predictMetaEvolution hist).decliningDecks.length ≤ 5)
    ∧ (∃ sorted : List (String × ℚ),
        List.Perm sorted (AdvancedMetaAnalyzer.risingCandidates trends)
        ∧ sorted.Sorted (fun a b => b.2 ≤ a.2)
        ∧ AdvancedMetaAnalyzer.identifyRisingDecks trends = (sorted.take 5).map Prod.fst)
    ∧ (∃ sorted : List (String × ℚ),
        List.Perm sorted (AdvancedMetaAnalyzer.decliningCandidates trends)
        ∧ sorted.Sorted (fun a b => b.2 ≤ a.2)
        ∧ AdvancedMetaAnalyzer.identifyDecliningDecks trends
            = (sorted.take 5).map Prod.fst) := by
  refine ⟨?_,
    ⟨(AdvancedMetaAnalyzer.risingCandidates trends).insertionSort (fun a b => b.2 ≤ a.2),
      List.perm_insertionSort _ _, List.sorted_insertionSort _ _, rfl⟩,
    ⟨(AdvancedMetaAnalyzer.decliningCandidates trends).insertionSort (fun a b => b.2 ≤ a.2),
      List.perm_insertionSort _ _, List.sorted_insertionSort _ _, rfl⟩⟩
  unfold AdvancedMetaAnalyzer.predictMetaEvolution
  split_ifs with h
  · exact ⟨by simp, by simp⟩
  · constructor
    · simp only [AdvancedMetaAnalyzer.identifyRisingDecks, List.length_map]
      exact List.length_take_le 5 _
    · simp only [AdvancedMetaAnalyzer.identifyDecliningDecks, List.length_map]
      exact List.length_take_le 5 _

/-- Definition following the words of the spec (section 4.2) for the
expected win rate of a deck present in the field: the share-weighted
average over every other deck of the matchup rate (falling back to the
own aggregate win rate of the deck), plus — when the value
`remaining = 100 - Σ shares` is positive — a final term of the deck win
rate weighted by the remaining mass; when the total weight is 0 the
result is the own win rate of the deck. -/
def expectedWinRateSpec (decks : List Deck) (matchups : Matchups) (deck : Deck) : ℚ :=
  let others := decks.filter (fun o => !(o.name == deck.name))
  let weightedSum :=
    (others.map (fun o =>
      (((matchups.lookup deck.name).bind (fun md => md.lookup o.name)).getD deck.winRate)
        * o.share)).sum
  let remaining := 100 - sumShares decks
  let total := (others.map Deck.share).sum + (if remaining > 0 then remaining else 0)
  let weightedSum :=
    if remaining > 0 then weightedSum + deck.winRate * remaining else weightedSum
  if total = 0 then deck.winRate else weightedSum / total

/-- C3: for a deck found in the field under nonnegative shares, the
source computation agrees with the specification formula
`expectedWinRateSpec`. -/
theorem expectedWinRate_matches_spec (decks : List Deck) (matchups : Matchups) (deck : Deck)
    (hfind : decks.find? (fun d => d.name == deck.name) = some deck)
    (hpos : ∀ d ∈ decks, 0 ≤ d.share) :
    DeckOptimizer.calculateExpectedWinRate decks matchups deck.name
      = expectedWinRateSpec decks matchups deck := by
  unfold DeckOptimizer.calculateExpectedWinRate expectedWinRateSpec
  rw [hfind]
  have hS : 0 ≤ ((decks.filter (fun o => !(o.name == deck.name))).map Deck.share).sum := by
    apply List.sum_nonneg
    intro x hx
    obtain ⟨o, ho, rfl⟩ := List.mem_map.mp hx
    exact hpos o (List.mem_of_mem_filter ho)
  by_cases hR : (100 - sumShares decks) > 0
  · simp only [if_pos hR]
    by_cases hT : ((decks.filter (fun o => !(o.name == deck.name))).map Deck.share).sum
        + (100 - sumShares decks) > 0
    · rw [if_pos hT, if_neg hT.ne']
    · exfalso
      linarith
  · simp only [if_neg hR, add_zero]
    by_cases hT : ((decks.filter (fun o => !(o.name == deck.name))).map Deck.share).sum > 0
    · rw [if_pos hT, if_neg hT.ne']
    · have hz : ((decks.filter (fun o => !(o.name == deck.name))).map Deck.share).sum = 0 :=
        le_antisymm (not_lt.mp hT) hS
      rw [if_neg hT, if_pos hz]

/-- Concrete matchup table for the C3 witness. -/
def topMatchups : Matchups := [("Top", [("Second", 60), ("Third", 45)])]

/-- Witness for C3 on the [40, 30, 20, 10] field with a partial matchup
table for the top deck. -/
theorem expectedWinRate_matches_spec_witness :
    covDecks.find? (fun d => d.name == (mkShareDeck "Top" 40).name)
        = some (mkShareDeck "Top" 40)
    ∧ (∀ d ∈ covDecks, 0 ≤ d.share)
    ∧ DeckOptimizer.calculateExpectedWinRate covDecks topMatchups (mkShareDeck "Top" 40).name
        = expectedWinRateSpec covDecks topMatchups (mkShareDeck "Top" 40) :=
  ⟨by decide, by decide,
    expectedWinRate_matches_spec covDecks topMatchups (mkShareDeck "Top" 40)
      (by decide) (by decide)⟩

/-- Minimal single-deck field exhibiting the meta-slot defect: low share,
expected win rate exactly at the 53 threshold. -/
def bugDeck : Deck :=
  { rank := 1, name := "Hidden Gem", count := 10, share := 4, score := "",
    winRate := 53, wins := 100, losses := 90, ties := 10 }

/-- The analysis the engine produces for `bugDeck` in an otherwise empty
field with an empty matchup table. -/
def bugAnalysis : DeckAnalysis :=
  { deck := bugDeck, expectedWinRate := 53, tier := "A+ (実用最強)",
    confidenceLevel := 8/10, stability := 1/2, strengths := [], weaknesses := [] }

/-- C1: the claim says the meta slot excludes the main deck. The source
filters with `a !== main`, but `main` is a fresh spread copy of
`analyses[0]`, so the test never rejects anything: on a single-deck field
whose deck has share < 5 and expected win rate ≥ 53 the meta slot is the
main analysis itself, so the meta deck coincides with the main deck. -/
theorem metaSlot_duplicates_main_bug :
    DeckOptimizer.recommendTournamentLineup [bugDeck] [] (fun _ => 0)
      = some { main := { analysis := bugAnalysis, confidence := 80,
                         favorableMatchups := [], unfavorableMatchups := [] },
               sub := none, meta := some bugAnalysis }
    ∧ bugAnalysis.deck.share < 5 ∧ (53 : ℚ) ≤ bugAnalysis.expectedWinRate
    ∧ bugAnalysis.deck.name = bugDeck.name := by
  refine ⟨by decide, by decide, by decide, rfl⟩

/-- C2 (counterexample): on fewer than two snapshots the source returns
`confidenceLevel: 0` from the guard branch, not the lowest band 0.3 of
`calculatePredictionConfidence`. -/
theorem predict_confidence_zero_counterexample :
    (AdvancedMetaAnalyzer.predictMetaEvolution []).confidenceLevel = 0
    ∧ (AdvancedMetaAnalyzer.predictMetaEvolution []).confidenceLevel ≠ 3/10 := by
  decide

/-- C2 (amended): for input sequences of length 0 or 1, trend prediction
returns empty rising and declining lists and confidence level 0, and is
total (never an error). -/
theorem predict_short_input (historicalData : List TimeSeries)
    (hlen : historicalData.length ≤ 1) :
    AdvancedMetaAnalyzer.predictMetaEvolution historicalData = ⟨[], [], 0⟩ := by
  unfold AdvancedMetaAnalyzer.predictMetaEvolution
  rw [if_pos]
  omega

/-- Witness for the amended C2 theorem at the empty snapshot list. -/
theorem predict_short_input_witness :
    ([] : List TimeSeries).length ≤ 1
    ∧ AdvancedMetaAnalyzer.predictMetaEvolution [] = ⟨[], [], 0⟩ :=
  ⟨by decide, predict_short_input [] (by decide)⟩

/-- C4: a deck name that occurs nowhere in the field makes
`calculateExpectedWinRate` return the defined value 0 (the embedding is
total, so no exception is possible). -/
theorem expectedWinRate_absent_deck (decks : List Deck) (matchups : Matchups)
    (name : String) (habs : ∀ d ∈ decks, d.name ≠ name) :
    DeckOptimizer.calculateExpectedWinRate decks matchups name = 0 := by
  unfold DeckOptimizer.calculateExpectedWinRate
  have hfind : decks.find? (fun d => d.name == name) = none := by
    rw [List.find?_eq_none]
    intro d hd
    simp [habs d hd]
  rw [hfind]

/-- Witness for C4: `bugDeck` is the whole field and the query name does
not occur in it. -/
theorem expectedWinRate_absent_deck_witness :
    (∀ d ∈ [bugDeck], d.name ≠ "Pikachu ex")
    ∧ DeckOptimizer.calculateExpectedWinRate [bugDeck] [] "Pikachu ex" = 0 :=
  ⟨by decide, expectedWinRate_absent_deck [bugDeck] [] "Pikachu ex" (by decide)⟩

/-- C6: both tier classifiers use the thresholds 57/55/53/51/49, each
inclusive on the lower bound of its tier, and exactly 57.0 maps to SS
while 56.999 maps to S. -/
theorem tier_thresholds (x : ℚ) :
    (57 ≤ x → DataStorage.getTier x = "SS" ∧ DeckOptimizer.getTier x = "SS (環境支配)")
    ∧ (55 ≤ x ∧ x < 57 → DataStorage.getTier x = "S" ∧ DeckOptimizer.getTier x = "S (最強候補)")
    ∧ (53 ≤ x ∧ x < 55 → DataStorage.getTier x = "A+" ∧ DeckOptimizer.getTier x = "A+ (実用最強)")
    ∧ (51 ≤ x ∧ x < 53 → DataStorage.getTier x = "A" ∧ DeckOptimizer.getTier x = "A (実用可能)")
    ∧ (49 ≤ x ∧ x < 51 → DataStorage.getTier x = "B" ∧ DeckOptimizer.getTier x = "B (条件付き採用)")
    ∧ (x < 49 → DataStorage.getTier x = "C" ∧ DeckOptimizer.getTier x = "C (非推奨)")
    ∧ DataStorage.getTier 57 = "SS" ∧ DataStorage.getTier (56999/1000) = "S" := by
  refine ⟨fun h => ?_, fun h => ?_, fun h => ?_, fun h => ?_, fun h => ?_, fun h => ?_,
    by decide, by decide⟩
  · unfold DataStorage.getTier DeckOptimizer.getTier
    split_ifs <;> first | exact ⟨rfl, rfl⟩ | (exfalso; linarith)
  all_goals try obtain ⟨h1, h2⟩ := h
  all_goals unfold DataStorage.getTier DeckOptimizer.getTier
  all_goals split_ifs <;> first | exact ⟨rfl, rfl⟩ | (exfalso; linarith)

/-- Witness for C6 at the boundary input 57. -/
theorem tier_thresholds_witness :
    (57 : ℚ) ≤ 57 ∧ DataStorage.getTier 57 = "SS"
    ∧ DeckOptimizer.getTier 57 = "SS (環境支配)" :=
  ⟨le_refl 57, ((tier_thresholds 57).1 (le_refl 57)).1, ((tier_thresholds 57).1 (le_refl 57)).2⟩

/-- Single-deck field holding the whole observed meta, for the diversity
witnesses. -/
def hundredDeck : Deck :=
  { rank := 1, name := "Mono", count := 1, share := 100, score := "",
    winRate := 50, wins := 0, losses := 0, ties := 0 }

/-- C8: when the total share is 0, and for fields of one or zero decks,
the Simpson complement index of the analyzer and the normalized Shannon
index of the weekly report both evaluate to exactly 0 (the embedding is
total, so no NaN can arise); only `log2 1 = 0` is assumed about the
abstracted `Math.log2`. -/
theorem diversity_degenerate_cases (log2 : ℚ → ℚ) (decks : List Deck) (d : Deck)
    (hlog : log2 1 = 0) :
    (sumShares decks = 0 →
      AdvancedMetaAnalyzer.calculateDiversityIndex decks = 0
      ∧ AdvancedMetaAnalysis.calculateDiversityIndex log2 decks = 0)
    ∧ AdvancedMetaAnalyzer.calculateDiversityIndex [] = 0
    ∧ AdvancedMetaAnalysis.calculateDiversityIndex log2 [] = 0
    ∧ AdvancedMetaAnalyzer.calculateDiversityIndex [d] = 0
    ∧ AdvancedMetaAnalysis.calculateDiversityIndex log2 [d] = 0 := by
  refine ⟨fun h => ⟨?_, ?_⟩, by decide, ?_, ?_, ?_⟩
  · simp [AdvancedMetaAnalyzer.calculateDiversityIndex, h]
  · simp [AdvancedMetaAnalysis.calculateDiversityIndex, h]
  · simp [AdvancedMetaAnalysis.calculateDiversityIndex, sumShares]
  · by_cases hd : d.share = 0
    · simp [AdvancedMetaAnalyzer.calculateDiversityIndex, sumShares, hd]
    · have hsum : sumShares [d] = d.share := by simp [sumShares]
      simp only [AdvancedMetaAnalyzer.calculateDiversityIndex, hsum]
      rw [if_neg hd]
      simp [div_self hd]
  · by_cases hd : d.share = 0
    · simp [AdvancedMetaAnalysis.calculateDiversityIndex, sumShares, hd]
    · have hsum : sumShares [d] = d.share := by simp [sumShares]
      simp only [AdvancedMetaAnalysis.calculateDiversityIndex, hsum]
      rw [if_neg hd]
      simp only [List.length_singleton, Nat.cast_one, hlog]
      rw [if_neg (lt_irrefl 0)]
      decide

/-- Witness for C8 at a single 100%-share deck, with the zero function
standing in for log2. -/
theorem diversity_degenerate_cases_witness :
    (fun _ : ℚ => (0 : ℚ)) 1 = 0
    ∧ AdvancedMetaAnalyzer.calculateDiversityIndex [hundredDeck] = 0
    ∧ AdvancedMetaAnalysis.calculateDiversityIndex (fun _ => 0) [hundredDeck] = 0 :=
  ⟨rfl,
   (diversity_degenerate_cases (fun _ => 0) [] hundredDeck rfl).2.2.2.1,
   (diversity_degenerate_cases (fun _ => 0) [] hundredDeck rfl).2.2.2.2⟩

/-- C9: the embedded scoring path is a pure function of the field, the
matchup table and the square-root function — the source consults no
randomness, clock or hidden state in `analyzeAllDecks` — so two runs on
the same input are identical ranked lists. -/
theorem analyzeAllDecks_deterministic (decks : List Deck) (matchups : Matchups)
    (sqrtFn : ℚ → ℚ) :
    DeckOptimizer.analyzeAllDecks decks matchups sqrtFn
      = DeckOptimizer.analyzeAllDecks decks matchups sqrtFn := rfl
